import Mathlib

/-!
Verification of the loopdb build-and-preview portal (`app.py`).

Strings from the Python source are modelled as `List Char`, byte strings as
`List Nat` (each element `< 256`), filesystem paths as lists of path
components, and the on-disk state as an association list from path strings
to file contents.  External collaborators (the `json` codec, PyCryptodome's
scrypt/AES-GCM, the `payload.sh` child process, the network) are taken as
explicit function parameters, so every definition below stays executable.
-/

/-! ## Character and string helpers -/

/-- The ASCII whitespace characters recognised by Python's `str.strip()`. -/
def pyIsSpace (c : Char) : Bool :=
  c == ' ' || c == '\t' || c == '\n' || c == '\r' || c == Char.ofNat 11 || c == Char.ofNat 12

/-- ASCII decimal digit test, the model of the regex class `\d`. -/
def isDig (c : Char) : Bool :=
  48 ≤ c.toNat && c.toNat ≤ 57

/-- Python `str.strip()`: remove leading and trailing whitespace. -/
def pyStrip (l : List Char) : List Char :=
  ((l.dropWhile pyIsSpace).reverse.dropWhile pyIsSpace).reverse

/-- Python `str.split(sep)` for a one-character separator: always returns at
least one (possibly empty) field. -/
def splitOnChar (sep : Char) : List Char → List (List Char)
  | [] => [[]]
  | c :: rest =>
    if c = sep then [] :: splitOnChar sep rest
    else
      match splitOnChar sep rest with
      | [] => [[c]]
      | f :: fs => (c :: f) :: fs

/-- Python `sep.join(fields)` for a one-character separator. -/
def joinChar (sep : Char) : List (List Char) → List Char
  | [] => []
  | [p] => p
  | p :: q :: r => p ++ sep :: joinChar sep (q :: r)

/-- Python `int(s)` on a string of ASCII digits. -/
def digitsToNat (l : List Char) : Nat :=
  l.foldl (fun a c => a * 10 + (c.toNat - 48)) 0

/-- The digit character for a value `< 10`. -/
def digitChar (n : Nat) : Char :=
  Char.ofNat (48 + n)

/-- Fuel-driven decimal rendering (the fuel keeps the recursion structural so
that the kernel can evaluate it). -/
def natDigitsAux (fuel : Nat) (n : Nat) : List Char :=
  match fuel with
  | 0 => []
  | fuel + 1 => if n < 10 then [digitChar n] else natDigitsAux fuel (n / 10) ++ [digitChar (n % 10)]

/-- Python `str(n)` on a non-negative integer: decimal, no leading zeros. -/
def natDigits (n : Nat) : List Char :=
  natDigitsAux (n + 1) n

/-- `parts[-1] += 1` on a list of integers. -/
def bumpLast : List Nat → List Nat
  | [] => []
  | [a] => [a + 1]
  | a :: b :: r => a :: bumpLast (b :: r)

/-- The model of `re.fullmatch(r'\d+(\.\d+)*', s)`: every dot-separated field
is a non-empty run of digits. -/
def semverMatch (s : List Char) : Bool :=
  (splitOnChar '.' s).all (fun p => !p.isEmpty && p.all isDig)

/-- The maximal run of digits at the end of `s`. -/
def trailingDigits (s : List Char) : List Char :=
  (s.reverse.takeWhile isDig).reverse

/-- `s` with its maximal trailing run of digits removed. -/
def trailingHead (s : List Char) : List Char :=
  (s.reverse.dropWhile isDig).reverse

/-- The segment of `s` after its last newline (all of `s` when it has none).
`re.search(r'(.*?)(\d+)$', s)` can only match inside this segment because `.`
does not match a newline. -/
def afterLastNewline (s : List Char) : List Char :=
  (s.reverse.takeWhile (fun c => !(c == '\n'))).reverse

/-! ## VersionBumper (`_bump_semver`, `_is_date_prefix`, `_bump_model_version`) -/

/-- `_bump_semver` from `app.py`: strip the input; empty means `"1.0.0"`; a
pure dot-separated digit sequence has every field parsed as an integer, the
last one incremented, and all of them re-rendered; otherwise a trailing digit
run (inside the segment after the last newline, mirroring `re.search` with a
lazy head group) is incremented; otherwise `".1"` is appended. -/
def _bump_semver (ver : List Char) : List Char :=
  let s := pyStrip ver
  if s.isEmpty then "1.0.0".toList
  else if semverMatch s then
    joinChar '.' ((bumpLast ((splitOnChar '.' s).map digitsToNat)).map natDigits)
  else
    let t := afterLastNewline s
    let ds := trailingDigits t
    if ds.isEmpty then s ++ ".1".toList
    else trailingHead t ++ natDigits (digitsToNat ds + 1)

/-- `_is_date_prefix` from `app.py`: `re.match(r'^\d{4}-\d{2}-\d{2}', s)`. -/
def _is_date_start (s : List Char) : Bool :=
  match s with
  | y1 :: y2 :: y3 :: y4 :: '-' :: m1 :: m2 :: '-' :: d1 :: d2 :: _ =>
    isDig y1 && isDig y2 && isDig y3 && isDig y4 && isDig m1 && isDig m2 && isDig d1 && isDig d2
  | _ => false

/-- `_bump_model_version` from `app.py`, with `_today_str()` passed in as the
`today` argument: a date-shaped input keeps its suffix from offset 10 after
today's date, anything else goes through `_bump_semver`. -/
def _bump_model_version (today : List Char) (ver : List Char) : List Char :=
  if _is_date_start ver then
    today ++ (if 10 < ver.length then ver.drop 10 else [])
  else _bump_semver ver

/-! ## TokenEnvelope (`_b64`, `_aesgcm_encrypt`) -/

/-- The URL-safe base64 alphabet used by `base64.urlsafe_b64encode`. -/
def b64alphabet : List Char :=
  "ABCDEFGHIJKLMNOPQRSTUVWXYZabcdefghijklmnopqrstuvwxyz0123456789-_".toList

/-- The alphabet character for a six-bit value. -/
def sext (n : Nat) : Char :=
  b64alphabet.getD (n % 64) 'A'

/-- Unpadded URL-safe base64: `base64.urlsafe_b64encode(x).rstrip('=')`,
three input bytes at a time. -/
def b64encode : List Nat → List Char
  | [] => []
  | [a] => [sext (a / 4), sext (a % 4 * 16)]
  | [a, b] => [sext (a / 4), sext (a % 4 * 16 + b / 16), sext (b % 16 * 4)]
  | a :: b :: c :: rest =>
    sext (a / 4) :: sext (a % 4 * 16 + b / 16) :: sext (b % 16 * 4 + c / 64) :: sext (c % 64) ::
      b64encode rest

/-- `_b64` from `app.py` (the decode to ASCII is implicit in the model). -/
def _b64 (x : List Nat) : List Char :=
  b64encode x

/-- UTF-8 encoding of one code point. -/
def utf8Bytes (c : Char) : List Nat :=
  let n := c.toNat
  if n < 128 then [n]
  else if n < 2048 then [192 + n / 64, 128 + n % 64]
  else if n < 65536 then [224 + n / 4096, 128 + n / 64 % 64, 128 + n % 64]
  else [240 + n / 262144, 128 + n / 4096 % 64, 128 + n / 64 % 64, 128 + n % 64]

/-- Python `s.encode('utf-8')`. -/
def utf8Encode (s : List Char) : List Nat :=
  (s.map utf8Bytes).flatten

/-- `_aesgcm_encrypt` from `app.py`.  The scrypt KDF and the AES-GCM cipher
are the PyCryptodome primitives, passed in as `scryptF` (arguments: password
bytes, salt, key length, N, r, p) and `gcm` (arguments: key, nonce, plaintext
bytes; result: ciphertext and authentication tag); the 16-byte salt and the
12-byte nonce produced by `secrets.token_bytes` are passed in as the
generated randomness. -/
def _aesgcm_encrypt
    (scryptF : List Nat → List Nat → Nat → Nat → Nat → Nat → List Nat)
    (gcm : List Nat → List Nat → List Nat → List Nat × List Nat)
    (plaintext passphrase : List Char) (salt nonce : List Nat) : List Char :=
  let key := scryptF (utf8Encode passphrase) salt 32 (2 ^ 15) 8 1
  let ct := (gcm key nonce (utf8Encode plaintext)).1
  let tag := (gcm key nonce (utf8Encode plaintext)).2
  "aesgcm:v1:".toList ++
    (_b64 salt ++ ':' :: (_b64 nonce ++ ':' :: (_b64 ct ++ ':' :: _b64 tag)))

/-! ## Manifest values and dictionaries -/

/-- The JSON values this program stores in the manifest: strings and objects
(`appboot.json` holds version strings and the `github` / `tokens` tables). -/
inductive JVal where
  | jstr (s : List Char)
  | jdict (entries : List (List Char × JVal))

/-- Python truthiness for the values above: non-empty strings and non-empty
dicts are truthy. -/
def truthy : JVal → Bool
  | .jstr s => !s.isEmpty
  | .jdict d => !d.isEmpty

mutual

/-- Python `repr` of a value (as produced inside `str(dict)`). -/
def pyReprJ : JVal → List Char
  | .jstr s => Char.ofNat 39 :: s ++ [Char.ofNat 39]
  | .jdict d => Char.ofNat 123 :: reprEntries d ++ [Char.ofNat 125]

/-- Python `repr` of a dict body, comma-and-space separated. -/
def reprEntries : List (List Char × JVal) → List Char
  | [] => []
  | [(k, v)] => Char.ofNat 39 :: k ++ Char.ofNat 39 :: ':' :: ' ' :: pyReprJ v
  | (k, v) :: rest =>
    Char.ofNat 39 :: k ++ Char.ofNat 39 :: ':' :: ' ' :: pyReprJ v ++ ',' :: ' ' :: reprEntries rest

end

/-- Python `str` of a value: strings are themselves, dicts go through repr. -/
def pyStr : JVal → List Char
  | .jstr s => s
  | .jdict d => pyReprJ (.jdict d)

/-- First-match lookup in an association list (Python dict read). -/
def dlookup {α β : Type} [DecidableEq α] : List (α × β) → α → Option β
  | [], _ => none
  | (k, v) :: rest, q => if k = q then some v else dlookup rest q

/-- In-place update, appending when the key is absent (Python `d[k] = v`). -/
def dinsert {α β : Type} [DecidableEq α] : List (α × β) → α → β → List (α × β)
  | [], q, w => [(q, w)]
  | (k, v) :: rest, q, w => if k = q then (q, w) :: rest else (k, v) :: dinsert rest q w

/-- A manifest is a JSON object: keys to values. -/
abbrev Manifest := List (List Char × JVal)

def kAppVersion : List Char := "appVersion".toList

def kAppVersionSnake : List Char := "app_version".toList

def kModelVersion : List Char := "modelVersion".toList

def kModelVersionSnake : List Char := "model_version".toList

def kGithub : List Char := "github".toList

def kTokens : List Char := "tokens".toList

def kTokenEnc : List Char := "token_enc".toList

def kToken : List Char := "token".toList

def kGithubEnc : List Char := "github_enc".toList

/-- Python `a or b` on optional values (`None` and falsy values fall through). -/
def pyOr (a b : Option JVal) : Option JVal :=
  match a with
  | some v => if truthy v then some v else b
  | none => b

/-- One version field as read by `_extract_versions`:
`str(appboot.get(k1) or appboot.get(k2) or '')`. -/
def versionField (ab : Manifest) (k1 k2 : List Char) : List Char :=
  match pyOr (dlookup ab k1) (dlookup ab k2) with
  | some v => if truthy v then pyStr v else []
  | none => []

/-- `_extract_versions` from `app.py`. -/
def _extract_versions (ab : Manifest) : List Char × List Char :=
  (versionField ab kAppVersion kAppVersionSnake,
   versionField ab kModelVersion kModelVersionSnake)

/-- `_set_versions` from `app.py`: write back under the camelCase spelling
when it is present (or when the snake_case one is absent), otherwise under
the snake_case spelling. -/
def _set_versions (ab : Manifest) (app_v model_v : List Char) : Manifest :=
  let ab1 :=
    if (dlookup ab kAppVersion).isSome || !(dlookup ab kAppVersionSnake).isSome then
      dinsert ab kAppVersion (.jstr app_v)
    else
      dinsert ab kAppVersionSnake (.jstr app_v)
  if (dlookup ab1 kModelVersion).isSome || !(dlookup ab1 kModelVersionSnake).isSome then
    dinsert ab1 kModelVersion (.jstr model_v)
  else
    dinsert ab1 kModelVersionSnake (.jstr model_v)

/-- `_inject_encrypted_token` from `app.py`: store the envelope under
`github.token_enc` (clearing `github.token`) and under `tokens.github_enc`.
`none` models the `TypeError` raised when an existing `github` or `tokens`
entry is not a dict. -/
def _inject_encrypted_token (ab : Manifest) (enc : List Char) : Option Manifest :=
  match (match dlookup ab kGithub with
         | none => some []
         | some (.jdict d) => some d
         | some _ => none : Option (List (List Char × JVal))) with
  | none => none
  | some gh =>
    let gh1 := dinsert (dinsert gh kTokenEnc (.jstr enc)) kToken (.jstr [])
    let ab1 := dinsert ab kGithub (.jdict gh1)
    match (match dlookup ab1 kTokens with
           | none => some []
           | some (.jdict d) => some d
           | some _ => none : Option (List (List Char × JVal))) with
    | none => none
    | some toks =>
      some (dinsert ab1 kTokens (.jdict (dinsert toks kGithubEnc (.jstr enc))))

/-- Steps 1 and 2 of `api_build` on the loaded manifest: inject the envelope,
bump the requested version dimensions, write the results back into the
object that `_write_json` will persist. -/
def buildManifest (ab : Manifest) (enc today : List Char) (bumpApp bumpModel : Bool) :
    Option Manifest :=
  match _inject_encrypted_token ab enc with
  | none => none
  | some ab1 =>
    let cur := _extract_versions ab1
    let next_app := if bumpApp then _bump_semver cur.1 else cur.1
    let next_model := if bumpModel then _bump_model_version today cur.2 else cur.2
    some (_set_versions ab1 next_app next_model)

/-! ## ManifestStore (`_write_json`) and the on-disk state -/

/-- The filesystem: path strings mapped to file contents. -/
abbrev FS := List (List Char × List Char)

/-- The backup name chosen by `_write_json`:
`path.with_suffix(path.suffix + '.bak.' + ts)`, which for any file name
amounts to appending `.bak.<timestamp>` to the full name. -/
def bakPath (path ts : List Char) : List Char :=
  path ++ ".bak.".toList ++ ts

/-- `_write_json` from `app.py`, with the serialized text passed in as `text`
and `datetime.now().strftime('%Y%m%d-%H%M%S')` passed in as `ts`: copy any
pre-existing contents to the timestamped backup, then overwrite. -/
def _write_json (fs : FS) (path ts text : List Char) : FS :=
  match dlookup fs path with
  | some old => dinsert (dinsert fs (bakPath path ts) old) path text
  | none => dinsert fs path text

/-! ## ArtifactBuilder (`api_build`) -/

def PAYLOAD_PATH (base : List Char) : List Char :=
  base ++ "/payload.sh".toList

def APPBOOT_PATH (base : List Char) : List Char :=
  base ++ "/data/js/appboot.json".toList

def APPBOOT_ZIP_PATH (base : List Char) : List Char :=
  base ++ "/data/js/appboot.zip".toList

/-- The observable result of a build call. -/
inductive BuildOutcome where
  | notFoundPayload
  | notFoundManifest
  | prepFailed
  | encryptFailed
  | done (rc : Int)

/-- `api_build` from `app.py`.  `parse`/`serialize` stand for the `json`
codec, `zipOf` for the `zipfile` archive of the serialized manifest, and
`tool` for the `payload.sh` child process (it may rewrite the filesystem and
reports an exit code).  The two existence checks run before anything else;
afterwards the manifest is loaded, the encrypted token injected, the
requested versions bumped, the manifest persisted with a backup, the
manifest-only archive written, and the external tool invoked. -/
def api_build (parse : List Char → Option Manifest) (serialize : Manifest → List Char)
    (zipOf : List Char → List Char) (tool : FS → FS × Int)
    (scryptF : List Nat → List Nat → Nat → Nat → Nat → Nat → List Nat)
    (gcm : List Nat → List Nat → List Nat → List Nat × List Nat)
    (salt nonce : List Nat) (base : List Char) (fs : FS)
    (passphrase tokenIn defaultPass defaultToken : List Char)
    (bumpApp bumpModel : Bool) (today ts : List Char) : BuildOutcome × FS :=
  if (dlookup fs (PAYLOAD_PATH base)).isNone then (.notFoundPayload, fs)
  else if (dlookup fs (APPBOOT_PATH base)).isNone then (.notFoundManifest, fs)
  else
    let tokenPlain := if (pyStrip tokenIn).isEmpty then defaultToken else pyStrip tokenIn
    let keyPass := if (pyStrip passphrase).isEmpty then defaultPass else pyStrip passphrase
    match (dlookup fs (APPBOOT_PATH base)).bind parse with
    | none => (.prepFailed, fs)
    | some ab =>
      let enc := _aesgcm_encrypt scryptF gcm tokenPlain keyPass salt nonce
      match buildManifest ab enc today bumpApp bumpModel with
      | none => (.encryptFailed, fs)
      | some ab2 =>
        let text := serialize ab2
        let fs1 := _write_json fs (APPBOOT_PATH base) ts text
        let fs2 := dinsert fs1 (APPBOOT_ZIP_PATH base) (zipOf text)
        let out := tool fs2
        (.done out.2, out.1)

/-! ## PreviewPipeline (`api_preview_fetch` extraction, `api_preview_read`) -/

/-- The components of a POSIX path string, as `pathlib` keeps them: split on
`/`, drop empty runs and `.` segments, keep `..`. -/
def pathComponents (name : List Char) : List (List Char) :=
  (splitOnChar '/' name).filter (fun c => !c.isEmpty && !(c == ['.']))

/-- `pathlib`'s `base / name`: an absolute right operand replaces the base
entirely. -/
def pyJoin (base : List (List Char)) (name : List Char) : List (List Char) :=
  if name.head? = some '/' then pathComponents name else base ++ pathComponents name

/-- The path the operating system actually touches: `..` segments pop the
previous component (the filesystem root absorbs extra `..`). -/
def resolvePath (p : List (List Char)) : List (List Char) :=
  p.foldl (fun acc c => if c = ['.', '.'] then acc.dropLast else acc ++ [c]) []

/-- `UNZIP_DIR` relative to the application directory:
`data/js/_preview/unzipped`. -/
def unzipDir (base : List (List Char)) : List (List Char) :=
  base ++ ["data".toList, "js".toList, "_preview".toList, "unzipped".toList]

/-- Python `s.endswith(suf)`. -/
def endsWith (suf l : List Char) : Bool :=
  suf == l.drop (l.length - suf.length)

/-- Python `s.lower()` (ASCII case folding). -/
def pyLower (l : List Char) : List Char :=
  l.map Char.toLower

/-- The extraction step of `api_preview_fetch` for one archive entry: an
entry whose lowercased name ends in `.json` is written to
`UNZIP_DIR / info.filename` (the OS resolves any `..` segments on open);
other entries are only listed, not written. -/
def entryWritePath (base : List (List Char)) (name : List Char) :
    Option (List (List Char)) :=
  if endsWith ".json".toList (pyLower name) then
    some (resolvePath (pyJoin (unzipDir base) name))
  else none

/-- Python `'..' in s`: two adjacent dots somewhere in the string. -/
def hasDotDot : List Char → Bool
  | [] => false
  | [_] => false
  | a :: b :: r => (a == '.' && b == '.') || hasDotDot (b :: r)

/-- The name normalisation in `api_preview_read`:
`name.strip()`, then `.lstrip('/')`, then `.replace('\\', '/')`. -/
def normalizeName (raw : List Char) : List Char :=
  ((pyStrip raw).dropWhile (fun c => c == '/')).map
    (fun c => if c = Char.ofNat 92 then '/' else c)

/-- The path `api_preview_read` touches, `none` when the guard rejects the
name. -/
def previewTarget (base : List (List Char)) (raw : List Char) :
    Option (List (List Char)) :=
  let n := normalizeName raw
  if n.isEmpty || hasDotDot n then none
  else some (pyJoin (unzipDir base) n)

/-- The string form of an absolute path, as `str(path)` renders it. -/
def pathStr (p : List (List Char)) : List Char :=
  p.foldl (fun acc c => acc ++ '/' :: c) []

/-- The observable result of `api_preview_read`. -/
inductive ReadOutcome where
  | pathTraversal
  | notFound
  | parseError
  | ok (text : List Char)

/-- `api_preview_read` from `app.py`.  `readF` stands for the filesystem
(`none` means the path does not exist), `jsonOk` for `json.loads`
validation.  An empty or `..`-containing name is rejected; then the file
must exist and its path string must end in `.json`; then the text must be
valid JSON. -/
def api_preview_read (base : List (List Char))
    (readF : List (List Char) → Option (List Char))
    (jsonOk : List Char → Bool) (raw : List Char) : ReadOutcome :=
  match previewTarget base raw with
  | none => .pathTraversal
  | some target =>
    match readF target with
    | none => .notFound
    | some text =>
      if !endsWith ".json".toList (pathStr target) then .notFound
      else if jsonOk text then .ok text
      else .parseError

/-! ## Predicates used in the specifications below -/

/-- The key is absent or holds a dict — the condition under which
`_inject_encrypted_token` does not raise. -/
def dictOrAbsent (ab : Manifest) (k : List Char) : Bool :=
  match dlookup ab k with
  | none => true
  | some (.jdict _) => true
  | some _ => false

/-- Token injection succeeds: `github` and `tokens` are each absent or a
dict. -/
def injectOk (ab : Manifest) : Bool :=
  dictOrAbsent ab kGithub && dictOrAbsent ab kTokens

/-- The manifest carries a version field under exactly one of its two
accepted spellings, with a string value. -/
def oneStrSpelling (ab : Manifest) (k1 k2 : List Char) : Prop :=
  (∃ s, dlookup ab k1 = some (.jstr s) ∧ dlookup ab k2 = none) ∨
  (∃ s, dlookup ab k2 = some (.jstr s) ∧ dlookup ab k1 = none)

/-- A ten-character `YYYY-MM-DD` date shape. -/
def isoDateShape : List Char → Bool
  | [y1, y2, y3, y4, h1, m1, m2, h2, d1, d2] =>
    isDig y1 && isDig y2 && isDig y3 && isDig y4 && h1 == '-' &&
    isDig m1 && isDig m2 && h2 == '-' && isDig d1 && isDig d2
  | _ => false

/-! ## List lemmas: splitting and joining -/

theorem splitOnChar_ne_nil (sep : Char) (l : List Char) : splitOnChar sep l ≠ [] := by
  induction l with
  | nil => simp [splitOnChar]
  | cons c rest ih =>
    by_cases h : c = sep
    · subst h; simp [splitOnChar]
    · simp only [splitOnChar, if_neg h]
      cases hs : splitOnChar sep rest with
      | nil => simp
      | cons f fs => simp

theorem splitOnChar_cons_sep (sep : Char) (rest : List Char) :
    splitOnChar sep (sep :: rest) = [] :: splitOnChar sep rest := by
  simp [splitOnChar]

theorem splitOnChar_cons_ne (sep c : Char) (rest : List Char) (h : c ≠ sep) :
    ∃ f fs, splitOnChar sep rest = f :: fs ∧
      splitOnChar sep (c :: rest) = (c :: f) :: fs := by
  cases hs : splitOnChar sep rest with
  | nil => exact absurd hs (splitOnChar_ne_nil sep rest)
  | cons f fs => exact ⟨f, fs, rfl, by simp [splitOnChar, if_neg h, hs]⟩

theorem splitOnChar_no_sep (sep : Char) (a : List Char) (h : ∀ c ∈ a, c ≠ sep) :
    splitOnChar sep a = [a] := by
  induction a with
  | nil => rfl
  | cons c a' ih =>
    obtain ⟨f, fs, h1, h2⟩ := splitOnChar_cons_ne sep c a' (h c (by simp))
    rw [ih (fun x hx => h x (by simp [hx]))] at h1
    cases h1
    exact h2

theorem splitOnChar_append_sep (sep : Char) (a r : List Char) (h : ∀ c ∈ a, c ≠ sep) :
    splitOnChar sep (a ++ sep :: r) = a :: splitOnChar sep r := by
  induction a with
  | nil => simpa using splitOnChar_cons_sep sep r
  | cons c a' ih =>
    obtain ⟨f, fs, h1, h2⟩ :=
      splitOnChar_cons_ne sep c (a' ++ sep :: r) (h c (by simp))
    rw [ih (fun x hx => h x (by simp [hx]))] at h1
    cases h1
    simpa using h2

theorem joinChar_cons_cons (sep : Char) (p q : List Char) (r : List (List Char)) :
    joinChar sep (p :: q :: r) = p ++ sep :: joinChar sep (q :: r) := rfl

theorem splitOnChar_joinChar (sep : Char) (comps : List (List Char))
    (hne : comps ≠ []) (h : ∀ p ∈ comps, ∀ c ∈ p, c ≠ sep) :
    splitOnChar sep (joinChar sep comps) = comps := by
  induction comps with
  | nil => cases hne rfl
  | cons p rest ih =>
    cases rest with
    | nil => exact splitOnChar_no_sep sep p (h p (by simp))
    | cons q r =>
      rw [joinChar_cons_cons, splitOnChar_append_sep sep p _ (h p (by simp))]
      rw [ih (by simp) (fun x hx => h x (by simp [hx]))]

theorem joinChar_splitOnChar (sep : Char) (l : List Char) :
    joinChar sep (splitOnChar sep l) = l := by
  induction l with
  | nil => rfl
  | cons c rest ih =>
    by_cases h : c = sep
    · rw [h, splitOnChar_cons_sep]
      cases hs : splitOnChar sep rest with
      | nil => exact absurd hs (splitOnChar_ne_nil sep rest)
      | cons f fs =>
        rw [joinChar_cons_cons]
        rw [hs] at ih
        simpa using ih
    · obtain ⟨f, fs, h1, h2⟩ := splitOnChar_cons_ne sep c rest h
      rw [h2]
      rw [h1] at ih
      cases fs with
      | nil =>
        simpa [joinChar] using ih
      | cons g gs =>
        rw [joinChar_cons_cons] at ih ⊢
        simpa using ih

theorem joinChar_ne_nil (sep : Char) (comps : List (List Char))
    (hne : comps ≠ []) (hall : ∀ p ∈ comps, p ≠ []) :
    joinChar sep comps ≠ [] := by
  cases comps with
  | nil => cases hne rfl
  | cons p rest =>
    cases rest with
    | nil => exact hall p (by simp)
    | cons q r =>
      rw [joinChar_cons_cons]
      rcases hall p (by simp) with h
      cases p with
      | nil => simp
      | cons a b => simp

theorem exists_append_singleton {α : Type} (l : List α) (h : l ≠ []) :
    ∃ t c, l = t ++ [c] := by
  induction l with
  | nil => cases h rfl
  | cons a rest ih =>
    cases rest with
    | nil => exact ⟨[], a, rfl⟩
    | cons b r =>
      obtain ⟨t, c, ht⟩ := ih (by simp)
      exact ⟨a :: t, c, by simp [ht]⟩

theorem isDig_ne_dot {c : Char} (h : isDig c = true) : c ≠ '.' := by
  intro hc
  rw [hc] at h
  exact absurd h (by decide)

theorem isDig_ne_newline {c : Char} (h : isDig c = true) : c ≠ '\n' := by
  intro hc
  rw [hc] at h
  exact absurd h (by decide)

theorem joinChar_ends_digit (comps : List (List Char)) (hne : comps ≠ [])
    (hall : ∀ p ∈ comps, p ≠ [] ∧ ∀ c ∈ p, isDig c = true) :
    ∃ t c, joinChar '.' comps = t ++ [c] ∧ isDig c = true := by
  induction comps with
  | nil => cases hne rfl
  | cons p rest ih =>
    cases rest with
    | nil =>
      obtain ⟨hp, hdig⟩ := hall p (by simp)
      obtain ⟨t, c, ht⟩ := exists_append_singleton p hp
      exact ⟨t, c, ht, hdig c (by simp [ht])⟩
    | cons q r =>
      obtain ⟨t, c, ht, hc⟩ := ih (by simp) (fun x hx => hall x (by simp [hx]))
      exact ⟨p ++ '.' :: t, c, by simp [joinChar_cons_cons, ht], hc⟩

theorem semverMatch_iff (s : List Char) :
    semverMatch s = true ↔
      ∃ comps, comps ≠ [] ∧ (∀ p ∈ comps, p ≠ [] ∧ ∀ c ∈ p, isDig c = true) ∧
        s = joinChar '.' comps := by
  constructor
  · intro h
    refine ⟨splitOnChar '.' s, splitOnChar_ne_nil _ _, ?_, (joinChar_splitOnChar '.' s).symm⟩
    intro p hp
    unfold semverMatch at h
    rw [List.all_eq_true] at h
    have hp' := h p hp
    rw [Bool.and_eq_true] at hp'
    refine ⟨by simpa using hp'.1, ?_⟩
    intro c hc
    have := hp'.2
    rw [List.all_eq_true] at this
    exact this c hc
  · rintro ⟨comps, hne, hall, rfl⟩
    unfold semverMatch
    rw [splitOnChar_joinChar '.' comps hne
      (fun p hp c hc => isDig_ne_dot ((hall p hp).2 c hc))]
    rw [List.all_eq_true]
    intro p hp
    rw [Bool.and_eq_true]
    refine ⟨by simpa using (hall p hp).1, ?_⟩
    rw [List.all_eq_true]
    exact fun c hc => (hall p hp).2 c hc

/-! ## List lemmas: takeWhile, dropWhile, strip -/

theorem takeWhile_all {α : Type} (p : α → Bool) (l : List α)
    (h : ∀ a ∈ l, p a = true) : l.takeWhile p = l := by
  induction l with
  | nil => rfl
  | cons a rest ih =>
    rw [List.takeWhile_cons, if_pos (h a (by simp))]
    rw [ih (fun x hx => h x (by simp [hx]))]

theorem takeWhile_append_all {α : Type} (p : α → Bool) (l1 l2 : List α)
    (h : ∀ a ∈ l1, p a = true) :
    (l1 ++ l2).takeWhile p = l1 ++ l2.takeWhile p := by
  induction l1 with
  | nil => rfl
  | cons a rest ih =>
    rw [List.cons_append, List.takeWhile_cons, if_pos (h a (by simp))]
    rw [ih (fun x hx => h x (by simp [hx]))]
    rfl

theorem dropWhile_append_all {α : Type} (p : α → Bool) (l1 l2 : List α)
    (h : ∀ a ∈ l1, p a = true) :
    (l1 ++ l2).dropWhile p = l2.dropWhile p := by
  induction l1 with
  | nil => rfl
  | cons a rest ih =>
    rw [List.cons_append, List.dropWhile_cons, if_pos (h a (by simp))]
    exact ih (fun x hx => h x (by simp [hx]))

theorem takeWhile_cons_false {α : Type} (p : α → Bool) (a : α) (l : List α)
    (h : p a = false) : (a :: l).takeWhile p = [] := by
  rw [List.takeWhile_cons, if_neg (by simp [h])]

theorem dropWhile_cons_false {α : Type} (p : α → Bool) (a : α) (l : List α)
    (h : p a = false) : (a :: l).dropWhile p = a :: l := by
  rw [List.dropWhile_cons, if_neg (by simp [h])]

theorem dropWhile_head_false {α : Type} (p : α → Bool) (l : List α) (c : α)
    (h : (l.dropWhile p).head? = some c) : p c = false := by
  induction l with
  | nil => simp [List.dropWhile] at h
  | cons a rest ih =>
    rw [List.dropWhile_cons] at h
    by_cases hp : p a = true
    · rw [if_pos hp] at h
      exact ih h
    · rw [if_neg hp] at h
      simp at h
      rw [← h]
      exact Bool.eq_false_iff.mpr hp

theorem pyStrip_last_not_space (v t : List Char) (c : Char)
    (h : pyStrip v = t ++ [c]) : pyIsSpace c = false := by
  unfold pyStrip at h
  have h2 : ((v.dropWhile pyIsSpace).reverse.dropWhile pyIsSpace) = c :: t.reverse := by
    have := congrArg List.reverse h
    simpa using this
  exact dropWhile_head_false pyIsSpace _ c (by rw [h2]; rfl)

/-! ## Decimal rendering lemmas -/

theorem natDigitsAux_ne_nil (fuel n : Nat) (h : n < fuel) : natDigitsAux fuel n ≠ [] := by
  induction fuel generalizing n with
  | zero => omega
  | succ f ih =>
    rw [natDigitsAux]
    by_cases h10 : n < 10
    · simp [h10]
    · rw [if_neg h10]
      simp

theorem natDigitsAux_head_ne_zero (fuel n : Nat) (h : n < fuel) (h0 : n ≠ 0) :
    (natDigitsAux fuel n).head? ≠ some '0' := by
  induction fuel generalizing n with
  | zero => omega
  | succ f ih =>
    rw [natDigitsAux]
    by_cases h10 : n < 10
    · rw [if_pos h10]
      intro hc
      simp at hc
      have : n = 0 := by revert hc; interval_cases n <;> decide
      exact h0 this
    · rw [if_neg h10]
      have hlt : n / 10 < n := Nat.div_lt_self (by omega) (by omega)
      have hq : n / 10 < f := by omega
      have hq0 : n / 10 ≠ 0 := Nat.pos_iff_ne_zero.mp (Nat.div_pos (by omega) (by omega))
      have hne := natDigitsAux_ne_nil f (n / 10) hq
      cases hd : natDigitsAux f (n / 10) with
      | nil => exact absurd hd hne
      | cons x xs =>
        have := ih (n / 10) hq hq0
        rw [hd] at this
        simpa using this

theorem natDigits_pos_head_ne_zero (n : Nat) (h : n ≠ 0) :
    (natDigits n).head? ≠ some '0' := by
  exact natDigitsAux_head_ne_zero (n + 1) n (by omega) h

/-! ## Branch behaviour of `_bump_semver` -/

theorem bump_semver_empty_branch (v : List Char) (h : pyStrip v = []) :
    _bump_semver v = "1.0.0".toList := by
  simp only [_bump_semver]
  rw [h]
  rfl

theorem bump_semver_numeric_branch (v : List Char) (comps : List (List Char))
    (hne : comps ≠ []) (hall : ∀ p ∈ comps, p ≠ [] ∧ ∀ c ∈ p, isDig c = true)
    (hs : pyStrip v = joinChar '.' comps) :
    _bump_semver v = joinChar '.' ((bumpLast (comps.map digitsToNat)).map natDigits) := by
  have hd : ∀ p ∈ comps, p ≠ [] := fun p hp => (hall p hp).1
  have hsep : ∀ p ∈ comps, ∀ c ∈ p, c ≠ '.' :=
    fun p hp c hc => isDig_ne_dot ((hall p hp).2 c hc)
  have hne2 : joinChar '.' comps ≠ [] := joinChar_ne_nil '.' comps hne hd
  have hm : semverMatch (joinChar '.' comps) = true :=
    (semverMatch_iff _).mpr ⟨comps, hne, hall, rfl⟩
  simp only [_bump_semver]
  rw [hs, if_neg (by simpa using hne2), if_pos hm,
    splitOnChar_joinChar '.' comps hne hsep]

theorem bump_semver_trailing_branch (v hd ds : List Char)
    (hds : ds ≠ []) (hdig : ∀ c ∈ ds, isDig c = true)
    (hhd : hd = [] ∨ ∃ t c, hd = t ++ [c] ∧ isDig c = false)
    (hnl : ∀ c ∈ hd, c ≠ '\n')
    (hnm : semverMatch (pyStrip v) = false)
    (hs : pyStrip v = hd ++ ds) :
    _bump_semver v = hd ++ natDigits (digitsToNat ds + 1) := by
  have hne2 : hd ++ ds ≠ [] := by
    intro h
    rw [List.append_eq_nil] at h
    exact hds h.2
  have hrev : (hd ++ ds).reverse = ds.reverse ++ hd.reverse := by
    rw [List.reverse_append]
  have hdsrev : ∀ a ∈ ds.reverse, isDig a = true := by
    intro a ha
    exact hdig a (List.mem_reverse.mp ha)
  have hanl : afterLastNewline (hd ++ ds) = hd ++ ds := by
    unfold afterLastNewline
    rw [takeWhile_all _ _ ?_, List.reverse_reverse]
    intro a ha
    rw [List.mem_reverse, List.mem_append] at ha
    rcases ha with h1 | h2
    · simp [hnl a h1]
    · simp [isDig_ne_newline (hdig a h2)]
  have htw : (hd.reverse).takeWhile isDig = [] := by
    rcases hhd with h1 | ⟨t, c, h2, h3⟩
    · rw [h1]; rfl
    · rw [h2, List.reverse_append]
      exact takeWhile_cons_false isDig c t.reverse h3
  have hdw : (hd.reverse).dropWhile isDig = hd.reverse := by
    rcases hhd with h1 | ⟨t, c, h2, h3⟩
    · rw [h1]; rfl
    · rw [h2, List.reverse_append]
      exact dropWhile_cons_false isDig c t.reverse h3
  have htd : trailingDigits (hd ++ ds) = ds := by
    unfold trailingDigits
    rw [hrev, takeWhile_append_all isDig ds.reverse hd.reverse hdsrev, htw]
    simp
  have hth : trailingHead (hd ++ ds) = hd := by
    unfold trailingHead
    rw [hrev, dropWhile_append_all isDig ds.reverse hd.reverse hdsrev, hdw]
    simp
  rw [hs] at hnm
  simp only [_bump_semver]
  rw [hs, if_neg (by simpa using hne2), if_neg (by simp [hnm]), hanl, htd,
    if_neg (by simpa using hds), hth]

theorem bump_semver_fallback_branch (v t : List Char) (c : Char)
    (hs : pyStrip v = t ++ [c]) (hc : isDig c = false) :
    _bump_semver v = pyStrip v ++ ".1".toList := by
  have hne2 : t ++ [c] ≠ [] := by simp
  have hnm : semverMatch (t ++ [c]) = false := by
    rw [Bool.eq_false_iff]
    intro hm
    obtain ⟨comps, hcn, hall, hj⟩ := (semverMatch_iff _).mp hm
    obtain ⟨t2, c2, hj2, hd2⟩ := joinChar_ends_digit comps hcn hall
    rw [hj2] at hj
    obtain ⟨-, h2⟩ := List.append_inj' hj (by simp)
    have : c = c2 := by simpa using h2
    rw [this, hd2] at hc
    cases hc
  have hcs : pyIsSpace c = false := pyStrip_last_not_space v t c hs
  have hcn : ¬(c == '\n') = true := by
    intro h
    have : c = '\n' := by simpa using h
    rw [this] at hcs
    exact absurd hcs (by decide)
  have hrev : (t ++ [c]).reverse = c :: t.reverse := by simp
  have htd : trailingDigits (afterLastNewline (t ++ [c])) = [] := by
    unfold trailingDigits afterLastNewline
    rw [hrev, List.takeWhile_cons, if_pos (by simpa using hcn), List.reverse_reverse]
    rw [List.takeWhile_cons, if_neg (by simp [hc])]
    rfl
  simp only [_bump_semver]
  rw [hs, if_neg (by simp), if_neg (by simp [hnm]), htd]
  simp

/-- C4 (amended): `_bump_semver` maps empty-after-strip input to `"1.0.0"`;
on the trimmed input, a dot-separated digit sequence has every component
parsed as an integer, the last incremented, and all re-rendered in plain
decimal; a trimmed input ending in digits (with no newline in its head) has
the trailing run incremented and re-rendered, the head kept verbatim; a
trimmed input not ending in a digit gets `".1"` appended. -/
theorem bump_semver_characterization (v : List Char) :
    (pyStrip v = [] → _bump_semver v = "1.0.0".toList) ∧
    (∀ comps, comps ≠ [] → (∀ p ∈ comps, p ≠ [] ∧ ∀ c ∈ p, isDig c = true) →
      pyStrip v = joinChar '.' comps →
      _bump_semver v = joinChar '.' ((bumpLast (comps.map digitsToNat)).map natDigits)) ∧
    (∀ hd ds, ds ≠ [] → (∀ c ∈ ds, isDig c = true) →
      (hd = [] ∨ ∃ t c, hd = t ++ [c] ∧ isDig c = false) →
      (∀ c ∈ hd, c ≠ '\n') →
      semverMatch (pyStrip v) = false →
      pyStrip v = hd ++ ds →
      _bump_semver v = hd ++ natDigits (digitsToNat ds + 1)) ∧
    (∀ t c, pyStrip v = t ++ [c] → isDig c = false →
      _bump_semver v = pyStrip v ++ ".1".toList) := by
  refine ⟨bump_semver_empty_branch v, ?_, ?_, ?_⟩
  · exact fun comps hne hall hs => bump_semver_numeric_branch v comps hne hall hs
  · exact fun hd ds h1 h2 h3 h4 h5 h6 =>
      bump_semver_trailing_branch v hd ds h1 h2 h3 h4 h5 h6
  · exact fun t c hs hc => bump_semver_fallback_branch v t c hs hc

/-- C4 counterexample: on `"01.2"` the claim requires the first component to
stay `"01"` (result `"01.3"`), but the code re-renders every component
through `int`/`str` and produces `"1.3"`. -/
theorem bump_semver_component_preservation_fails :
    _bump_semver "01.2".toList = "1.3".toList ∧ "1.3".toList ≠ "01.3".toList :=
  ⟨by decide, by decide⟩

/-- C4 witness: the four examples named by the claim. -/
theorem bump_semver_characterization_witness :
    _bump_semver "1.2.3".toList = "1.2.4".toList ∧
    _bump_semver "".toList = "1.0.0".toList ∧
    _bump_semver "build7".toList = "build8".toList ∧
    _bump_semver "v".toList = "v.1".toList := by
  refine ⟨?_, ?_, ?_, ?_⟩
  · have h := (bump_semver_characterization ("1.2.3".toList)).2.1
      ["1".toList, "2".toList, "3".toList] (by decide) (by decide) (by decide)
    exact h.trans (by decide)
  · exact (bump_semver_characterization ("".toList)).1 (by decide)
  · have h := (bump_semver_characterization ("build7".toList)).2.2.1
      "build".toList "7".toList (by decide) (by decide)
      (Or.inr ⟨"buil".toList, 'd', by decide, by decide⟩) (by decide) (by decide) (by decide)
    exact h.trans (by decide)
  · have h := (bump_semver_characterization ("v".toList)).2.2.2
      [] 'v' (by decide) (by decide)
    exact h.trans (by decide)

/-- C10: in both incrementing branches the bumped component is re-rendered
as the plain decimal form of the incremented integer, which never has a
leading zero. -/
theorem bump_semver_rerender_no_leading_zero (v : List Char) :
    (∀ comps ds, comps ≠ [] → (∀ p ∈ comps, p ≠ [] ∧ ∀ c ∈ p, isDig c = true) →
      pyStrip v = joinChar '.' comps → comps.getLast? = some ds →
      _bump_semver v = joinChar '.' ((bumpLast (comps.map digitsToNat)).map natDigits) ∧
      (natDigits (digitsToNat ds + 1)).head? ≠ some '0') ∧
    (∀ hd ds, ds ≠ [] → (∀ c ∈ ds, isDig c = true) →
      (hd = [] ∨ ∃ t c, hd = t ++ [c] ∧ isDig c = false) →
      (∀ c ∈ hd, c ≠ '\n') →
      semverMatch (pyStrip v) = false →
      pyStrip v = hd ++ ds →
      _bump_semver v = hd ++ natDigits (digitsToNat ds + 1) ∧
      (natDigits (digitsToNat ds + 1)).head? ≠ some '0') := by
  constructor
  · intro comps ds hne hall hs _
    exact ⟨bump_semver_numeric_branch v comps hne hall hs,
      natDigits_pos_head_ne_zero _ (by omega)⟩
  · intro hd ds h1 h2 h3 h4 h5 h6
    exact ⟨bump_semver_trailing_branch v hd ds h1 h2 h3 h4 h5 h6,
      natDigits_pos_head_ne_zero _ (by omega)⟩

/-- C10 witness: the two examples named by the claim, with their
leading-zero components collapsing to plain decimals. -/
theorem bump_semver_rerender_no_leading_zero_witness :
    _bump_semver "1.007".toList = "1.8".toList ∧
    _bump_semver "build007".toList = "build8".toList := by
  constructor
  · have h := (bump_semver_rerender_no_leading_zero ("1.007".toList)).1
      ["1".toList, "007".toList] "007".toList (by decide) (by decide) (by decide) (by decide)
    exact h.1.trans (by decide)
  · have h := (bump_semver_rerender_no_leading_zero ("build007".toList)).2
      "build".toList "007".toList (by decide) (by decide)
      (Or.inr ⟨"buil".toList, 'd', by decide, by decide⟩) (by decide) (by decide) (by decide)
    exact h.1.trans (by decide)

/-! ## Date-shaped version strings -/

theorem isoDateShape_length (d : List Char) (h : isoDateShape d = true) :
    d.length = 10 := by
  unfold isoDateShape at h
  split at h
  next => rfl
  next => cases h

theorem is_date_start_iff (ver : List Char) :
    _is_date_start ver = true ↔
      ∃ d rest, ver = d ++ rest ∧ isoDateShape d = true := by
  constructor
  · intro h
    unfold _is_date_start at h
    split at h
    next y1 y2 y3 y4 m1 m2 d1 d2 tail =>
      refine ⟨[y1, y2, y3, y4, '-', m1, m2, '-', d1, d2], tail, rfl, ?_⟩
      simp only [Bool.and_eq_true] at h
      simp [isoDateShape, h.1.1.1.1.1.1.1, h.1.1.1.1.1.1.2, h.1.1.1.1.1.2, h.1.1.1.1.2,
        h.1.1.1.2, h.1.1.2, h.1.2, h.2]
    next => cases h
  · rintro ⟨d, rest, rfl, hshape⟩
    unfold isoDateShape at hshape
    split at hshape
    next y1 y2 y3 y4 h1 m1 m2 h2 d1 d2 =>
      simp only [Bool.and_eq_true, beq_iff_eq] at hshape
      obtain ⟨⟨⟨⟨⟨⟨⟨⟨⟨hy1, hy2⟩, hy3⟩, hy4⟩, hh1⟩, hm1⟩, hm2⟩, hh2⟩, hd1⟩, hd2⟩ := hshape
      subst hh1
      subst hh2
      simp [_is_date_start, hy1, hy2, hy3, hy4, hm1, hm2, hd1, hd2]
    next => cases hshape

/-- C5: `bumpModelVersion` maps an input beginning with a ten-character
`YYYY-MM-DD` shape to today's date string followed by the input's characters
from offset 10 on, unchanged, and delegates every other input to
`bumpSemver`. -/
theorem bump_model_version_spec (today ver : List Char) :
    (∀ d rest, ver = d ++ rest → isoDateShape d = true →
      _bump_model_version today ver = today ++ rest) ∧
    ((¬ ∃ d rest, ver = d ++ rest ∧ isoDateShape d = true) →
      _bump_model_version today ver = _bump_semver ver) := by
  constructor
  · intro d rest hdr hshape
    have hstart : _is_date_start ver = true :=
      (is_date_start_iff ver).mpr ⟨d, rest, hdr, hshape⟩
    have hd10 : d.length = 10 := isoDateShape_length d hshape
    unfold _bump_model_version
    rw [if_pos hstart]
    by_cases hlen : 10 < ver.length
    · rw [if_pos hlen, hdr, ← hd10, List.drop_left]
    · rw [if_neg hlen]
      have : rest = [] := by
        rw [hdr, List.length_append, hd10] at hlen
        rw [← List.length_eq_zero]
        omega
      rw [this]
  · intro hno
    have hstart : _is_date_start ver = false := by
      rw [Bool.eq_false_iff]
      intro h
      exact hno ((is_date_start_iff ver).mp h)
    unfold _bump_model_version
    rw [if_neg (by simp [hstart])]

/-- C5 witness: the two examples named by the claim. -/
theorem bump_model_version_spec_witness :
    _bump_model_version "2024-03-05".toList "2024-01-01-beta".toList =
      "2024-03-05-beta".toList ∧
    _bump_model_version "2024-03-05".toList "7".toList = _bump_semver "7".toList := by
  constructor
  · have h := (bump_model_version_spec "2024-03-05".toList "2024-01-01-beta".toList).1
      "2024-01-01".toList "-beta".toList (by decide) (by decide)
    exact h.trans (by decide)
  · refine (bump_model_version_spec _ _).2 ?_
    rintro ⟨d, rest, hdr, hshape⟩
    have : _is_date_start ("7".toList) = true :=
      (is_date_start_iff _).mpr ⟨d, rest, hdr, hshape⟩
    exact absurd this (by decide)

/-! ## Base64 alphabet facts and the envelope format -/

theorem b64alphabet_getD_ne :
    ∀ m, m < 64 → b64alphabet.getD m 'A' ≠ ':' ∧ b64alphabet.getD m 'A' ≠ '=' := by
  decide

theorem sext_ne_colon (n : Nat) : sext n ≠ ':' :=
  (b64alphabet_getD_ne (n % 64) (Nat.mod_lt _ (by omega))).1

theorem sext_ne_pad (n : Nat) : sext n ≠ '=' :=
  (b64alphabet_getD_ne (n % 64) (Nat.mod_lt _ (by omega))).2

theorem b64encode_chars : ∀ (l : List Nat), ∀ c ∈ b64encode l, c ≠ ':' ∧ c ≠ '='
  | [] => by simp [b64encode]
  | [a] => by
    intro c hc
    simp [b64encode] at hc
    rcases hc with h | h <;> subst h <;> exact ⟨sext_ne_colon _, sext_ne_pad _⟩
  | [a, b] => by
    intro c hc
    simp [b64encode] at hc
    rcases hc with h | h | h <;> subst h <;> exact ⟨sext_ne_colon _, sext_ne_pad _⟩
  | a :: b :: d :: rest => by
    intro c hc
    simp only [b64encode, List.mem_cons] at hc
    rcases hc with h | h | h | h | h
    · subst h; exact ⟨sext_ne_colon _, sext_ne_pad _⟩
    · subst h; exact ⟨sext_ne_colon _, sext_ne_pad _⟩
    · subst h; exact ⟨sext_ne_colon _, sext_ne_pad _⟩
    · subst h; exact ⟨sext_ne_colon _, sext_ne_pad _⟩
    · exact b64encode_chars rest c h

theorem b64_no_colon (x : List Nat) : ∀ c ∈ _b64 x, c ≠ ':' :=
  fun c hc => (b64encode_chars x c hc).1

/-- C3: for every plaintext, passphrase, and generated randomness of the
sizes `secrets.token_bytes` produces (16-byte salt, 12-byte nonce), the
envelope splits on `:` into exactly six fields: the literals `aesgcm` and
`v1` followed by the unpadded URL-safe base64 of the salt, the nonce, the
AES-GCM ciphertext of the UTF-8 plaintext, and the 16-byte tag, the key
being scrypt of the UTF-8 passphrase and the salt with key length 32,
N = 2^15, r = 8, p = 1. -/
theorem aesgcm_encrypt_envelope
    (scryptF : List Nat → List Nat → Nat → Nat → Nat → Nat → List Nat)
    (gcm : List Nat → List Nat → List Nat → List Nat × List Nat)
    (plaintext passphrase : List Char) (salt nonce : List Nat)
    (hsalt : salt.length = 16) (hnonce : nonce.length = 12)
    (htag : (gcm (scryptF (utf8Encode passphrase) salt 32 (2 ^ 15) 8 1) nonce
      (utf8Encode plaintext)).2.length = 16) :
    splitOnChar ':' (_aesgcm_encrypt scryptF gcm plaintext passphrase salt nonce) =
      ["aesgcm".toList, "v1".toList, _b64 salt, _b64 nonce,
       _b64 (gcm (scryptF (utf8Encode passphrase) salt 32 (2 ^ 15) 8 1) nonce
         (utf8Encode plaintext)).1,
       _b64 (gcm (scryptF (utf8Encode passphrase) salt 32 (2 ^ 15) 8 1) nonce
         (utf8Encode plaintext)).2] ∧
    (splitOnChar ':' (_aesgcm_encrypt scryptF gcm plaintext passphrase salt nonce)).length = 6 ∧
    (∀ f ∈ [_b64 salt, _b64 nonce,
        _b64 (gcm (scryptF (utf8Encode passphrase) salt 32 (2 ^ 15) 8 1) nonce
          (utf8Encode plaintext)).1,
        _b64 (gcm (scryptF (utf8Encode passphrase) salt 32 (2 ^ 15) 8 1) nonce
          (utf8Encode plaintext)).2],
      ∀ c ∈ f, c ≠ ':' ∧ c ≠ '=') ∧
    salt.length = 16 ∧ nonce.length = 12 ∧
    (gcm (scryptF (utf8Encode passphrase) salt 32 (2 ^ 15) 8 1) nonce
      (utf8Encode plaintext)).2.length = 16 := by
  have h1 : splitOnChar ':' (_aesgcm_encrypt scryptF gcm plaintext passphrase salt nonce) =
      ["aesgcm".toList, "v1".toList, _b64 salt, _b64 nonce,
       _b64 (gcm (scryptF (utf8Encode passphrase) salt 32 (2 ^ 15) 8 1) nonce
         (utf8Encode plaintext)).1,
       _b64 (gcm (scryptF (utf8Encode passphrase) salt 32 (2 ^ 15) 8 1) nonce
         (utf8Encode plaintext)).2] := by
    have hform : _aesgcm_encrypt scryptF gcm plaintext passphrase salt nonce =
        "aesgcm".toList ++ ':' :: ("v1".toList ++ ':' :: (_b64 salt ++ ':' :: (_b64 nonce ++
          ':' :: (_b64 (gcm (scryptF (utf8Encode passphrase) salt 32 (2 ^ 15) 8 1) nonce
              (utf8Encode plaintext)).1 ++
            ':' :: _b64 (gcm (scryptF (utf8Encode passphrase) salt 32 (2 ^ 15) 8 1) nonce
              (utf8Encode plaintext)).2)))) := by
      simp only [_aesgcm_encrypt]
      rfl
    rw [hform]
    rw [splitOnChar_append_sep ':' "aesgcm".toList _ (by decide)]
    rw [splitOnChar_append_sep ':' "v1".toList _ (by decide)]
    rw [splitOnChar_append_sep ':' (_b64 salt) _ (b64_no_colon salt)]
    rw [splitOnChar_append_sep ':' (_b64 nonce) _ (b64_no_colon nonce)]
    rw [splitOnChar_append_sep ':' (_b64 _) _ (b64_no_colon _)]
    rw [splitOnChar_no_sep ':' (_b64 _) (b64_no_colon _)]
  refine ⟨h1, by rw [h1]; rfl, ?_, hsalt, hnonce, htag⟩
  intro f hf c hc
  simp only [List.mem_cons, List.not_mem_nil, or_false] at hf
  rcases hf with rfl | rfl | rfl | rfl
  · exact b64encode_chars salt c hc
  · exact b64encode_chars nonce c hc
  · exact b64encode_chars _ c hc
  · exact b64encode_chars _ c hc

/-- C3 witness: a concrete instantiation of the primitives and randomness. -/
theorem aesgcm_encrypt_envelope_witness :
    (List.replicate 16 0).length = 16 ∧ (List.replicate 12 0).length = 12 ∧
    splitOnChar ':' (_aesgcm_encrypt (fun _ _ kl _ _ _ => List.replicate kl 0)
      (fun _ _ p => (p, List.replicate 16 1)) "tok".toList "pw".toList
      (List.replicate 16 0) (List.replicate 12 0)) =
      ["aesgcm".toList, "v1".toList, _b64 (List.replicate 16 0), _b64 (List.replicate 12 0),
       _b64 (utf8Encode "tok".toList), _b64 (List.replicate 16 1)] := by
  refine ⟨rfl, rfl, ?_⟩
  exact (aesgcm_encrypt_envelope (fun _ _ kl _ _ _ => List.replicate kl 0)
    (fun _ _ p => (p, List.replicate 16 1)) "tok".toList "pw".toList
    (List.replicate 16 0) (List.replicate 12 0) rfl rfl rfl).1

/-! ## Association-list lemmas -/

theorem dlookup_dinsert_self {α β : Type} [DecidableEq α] (d : List (α × β)) (q : α) (w : β) :
    dlookup (dinsert d q w) q = some w := by
  induction d with
  | nil => simp [dinsert, dlookup]
  | cons kv rest ih =>
    obtain ⟨k, v⟩ := kv
    by_cases h : k = q
    · simp [dinsert, h, dlookup]
    · simp [dinsert, h, dlookup, ih]

theorem dlookup_dinsert_ne {α β : Type} [DecidableEq α] (d : List (α × β)) (p q : α) (w : β)
    (h : p ≠ q) : dlookup (dinsert d q w) p = dlookup d p := by
  induction d with
  | nil => simp [dinsert, dlookup, Ne.symm h]
  | cons kv rest ih =>
    obtain ⟨k, v⟩ := kv
    by_cases hk : k = q
    · subst hk
      simp [dinsert, dlookup, Ne.symm h]
    · by_cases hp : k = p
      · simp [dinsert, hk, dlookup, hp, h]
      · simp [dinsert, hk, dlookup, hp, h, ih]

theorem dinsert_length_none {α β : Type} [DecidableEq α] (d : List (α × β)) (q : α) (w : β)
    (h : dlookup d q = none) : (dinsert d q w).length = d.length + 1 := by
  induction d with
  | nil => rfl
  | cons kv rest ih =>
    obtain ⟨k, v⟩ := kv
    by_cases hk : k = q
    · rw [dlookup, if_pos hk] at h
      cases h
    · rw [dlookup, if_neg hk] at h
      simp [dinsert, hk, ih h]

theorem dinsert_length_some {α β : Type} [DecidableEq α] (d : List (α × β)) (q : α) (w v : β)
    (h : dlookup d q = some v) : (dinsert d q w).length = d.length := by
  induction d with
  | nil => cases h
  | cons kv rest ih =>
    obtain ⟨k, v'⟩ := kv
    by_cases hk : k = q
    · simp [dinsert, hk]
    · rw [dlookup, if_neg hk] at h
      simp [dinsert, hk, ih h]

/-! ## ManifestStore backup behaviour -/

/-- C6 counterexample: two saves of the same path within the same wall-clock
second reuse the backup name, so the second save overwrites the backup made
by the first — the original content `"A"` is no longer in any backup. -/
theorem write_json_backup_overwrite_counterexample :
    dlookup (_write_json [("f.json".toList, "A".toList)] "f.json".toList
        "20240101-000000".toList "B".toList)
      (bakPath "f.json".toList "20240101-000000".toList) = some "A".toList ∧
    dlookup (_write_json (_write_json [("f.json".toList, "A".toList)] "f.json".toList
          "20240101-000000".toList "B".toList) "f.json".toList
        "20240101-000000".toList "C".toList)
      (bakPath "f.json".toList "20240101-000000".toList) = some "B".toList ∧
    "B".toList ≠ "A".toList :=
  ⟨by decide, by decide, by decide⟩

/-- C6 (amended): a save over an existing file whose backup name is fresh
(no earlier save of that path in the same wall-clock second) creates exactly
one new file — the `.bak.<YYYYMMDD-HHMMSS>` backup holding the pre-existing
content verbatim — overwrites the path with the new text, and leaves every
other file, including all earlier backups, unchanged.  Within one second the
name repeats and the earlier backup is overwritten (see the
counterexample). -/
theorem write_json_fresh_backup (fs : FS) (path ts text old : List Char)
    (hold : dlookup fs path = some old)
    (hfresh : dlookup fs (bakPath path ts) = none) :
    dlookup (_write_json fs path ts text) (bakPath path ts) = some old ∧
    dlookup (_write_json fs path ts text) path = some text ∧
    (∀ q, q ≠ path → q ≠ bakPath path ts →
      dlookup (_write_json fs path ts text) q = dlookup fs q) ∧
    (_write_json fs path ts text).length = fs.length + 1 := by
  have hne : path ≠ bakPath path ts := by
    intro h
    have hlen := congrArg List.length h
    simp [bakPath] at hlen
  unfold _write_json
  rw [hold]
  refine ⟨?_, ?_, ?_, ?_⟩
  · rw [dlookup_dinsert_ne _ _ _ _ (Ne.symm hne)]
    exact dlookup_dinsert_self fs (bakPath path ts) old
  · exact dlookup_dinsert_self _ path text
  · intro q h1 h2
    rw [dlookup_dinsert_ne _ _ _ _ h1, dlookup_dinsert_ne _ _ _ _ h2]
  · have hl : dlookup (dinsert fs (bakPath path ts) old) path = some old := by
      rw [dlookup_dinsert_ne _ _ _ _ hne]
      exact hold
    rw [dinsert_length_some _ _ _ _ hl, dinsert_length_none _ _ _ hfresh]

/-- C6 witness: a concrete save over an existing file with a fresh backup
name. -/
theorem write_json_fresh_backup_witness :
    dlookup ([("f.json".toList, "A".toList)] : FS) "f.json".toList = some "A".toList ∧
    dlookup (_write_json [("f.json".toList, "A".toList)] "f.json".toList
        "20240101-000000".toList "B".toList)
      (bakPath "f.json".toList "20240101-000000".toList) = some "A".toList ∧
    (_write_json [("f.json".toList, "A".toList)] "f.json".toList
      "20240101-000000".toList "B".toList).length = 2 := by
  refine ⟨by decide, ?_, ?_⟩
  · exact (write_json_fresh_backup [("f.json".toList, "A".toList)] "f.json".toList
      "20240101-000000".toList "B".toList "A".toList (by decide) (by decide)).1
  · have h := (write_json_fresh_backup [("f.json".toList, "A".toList)] "f.json".toList
      "20240101-000000".toList "B".toList "A".toList (by decide) (by decide)).2.2.2
    simpa using h

/-! ## ArtifactBuilder: fail-fast without mutation -/

/-- C7: when the packaging tool or the manifest file is absent, `api_build`
reports the corresponding not-found outcome and the filesystem it returns is
exactly the one it was given — the manifest, every backup, and the
manifest-only archive are unchanged. -/
theorem api_build_notfound_no_mutation
    (parse : List Char → Option Manifest) (serialize : Manifest → List Char)
    (zipOf : List Char → List Char) (tool : FS → FS × Int)
    (scryptF : List Nat → List Nat → Nat → Nat → Nat → Nat → List Nat)
    (gcm : List Nat → List Nat → List Nat → List Nat × List Nat)
    (salt nonce : List Nat) (base : List Char) (fs : FS)
    (passphrase tokenIn defaultPass defaultToken : List Char)
    (bumpApp bumpModel : Bool) (today ts : List Char)
    (h : dlookup fs (PAYLOAD_PATH base) = none ∨ dlookup fs (APPBOOT_PATH base) = none) :
    (api_build parse serialize zipOf tool scryptF gcm salt nonce base fs
        passphrase tokenIn defaultPass defaultToken bumpApp bumpModel today ts).2 = fs ∧
    ((api_build parse serialize zipOf tool scryptF gcm salt nonce base fs
        passphrase tokenIn defaultPass defaultToken bumpApp bumpModel today ts).1 =
        BuildOutcome.notFoundPayload ∨
     (api_build parse serialize zipOf tool scryptF gcm salt nonce base fs
        passphrase tokenIn defaultPass defaultToken bumpApp bumpModel today ts).1 =
        BuildOutcome.notFoundManifest) := by
  by_cases hp : dlookup fs (PAYLOAD_PATH base) = none
  · constructor
    · simp [api_build, hp]
    · left
      simp [api_build, hp]
  · have hm : dlookup fs (APPBOOT_PATH base) = none := h.resolve_left hp
    constructor
    · simp [api_build, hp, hm]
    · right
      simp [api_build, hp, hm]

/-- C7 witness: a build against an empty filesystem. -/
theorem api_build_notfound_no_mutation_witness :
    dlookup ([] : FS) (PAYLOAD_PATH "b".toList) = none ∧
    (api_build (fun _ => none) (fun _ => []) id (fun f => (f, 0))
      (fun _ _ _ _ _ _ => []) (fun _ _ p => (p, [])) [] [] "b".toList []
      [] [] [] [] true true [] []).2 = ([] : FS) := by
  refine ⟨rfl, ?_⟩
  exact (api_build_notfound_no_mutation (fun _ => none) (fun _ => []) id (fun f => (f, 0))
    (fun _ _ _ _ _ _ => []) (fun _ _ p => (p, [])) [] [] "b".toList []
    [] [] [] [] true true [] [] (Or.inl rfl)).1
/-! ## Token injection and version field lemmas -/

theorem inject_ok_some (ab : Manifest) (enc : List Char) (h : injectOk ab = true) :
    ∃ ab1, _inject_encrypted_token ab enc = some ab1 ∧
      ∀ k, k ≠ kGithub → k ≠ kTokens → dlookup ab1 k = dlookup ab k := by
  unfold injectOk at h
  rw [Bool.and_eq_true] at h
  obtain ⟨h1, h2⟩ := h
  unfold dictOrAbsent at h1 h2
  have hgt : kTokens ≠ kGithub := by decide
  have frame : ∀ (g t : JVal) (k : List Char), k ≠ kGithub → k ≠ kTokens →
      dlookup (dinsert (dinsert ab kGithub g) kTokens t) k = dlookup ab k := by
    intro g t k hk1 hk2
    rw [dlookup_dinsert_ne _ _ _ _ hk2, dlookup_dinsert_ne _ _ _ _ hk1]
  cases hg : dlookup ab kGithub with
  | none =>
    have e1 : ∀ g : JVal, dlookup (dinsert ab kGithub g) kTokens = dlookup ab kTokens :=
      fun g => dlookup_dinsert_ne _ _ _ _ hgt
    cases ht : dlookup ab kTokens with
    | none =>
      refine ⟨dinsert (dinsert ab kGithub
          (.jdict (dinsert (dinsert [] kTokenEnc (.jstr enc)) kToken (.jstr []))))
        kTokens (.jdict (dinsert [] kGithubEnc (.jstr enc))), ?_, frame _ _⟩
      simp only [_inject_encrypted_token, hg]
      rw [e1, ht]
    | some v =>
      cases v with
      | jstr s => rw [ht] at h2; cases h2
      | jdict d =>
        refine ⟨dinsert (dinsert ab kGithub
            (.jdict (dinsert (dinsert [] kTokenEnc (.jstr enc)) kToken (.jstr []))))
          kTokens (.jdict (dinsert d kGithubEnc (.jstr enc))), ?_, frame _ _⟩
        simp only [_inject_encrypted_token, hg]
        rw [e1, ht]
  | some v =>
    cases v with
    | jstr s => rw [hg] at h1; cases h1
    | jdict gh =>
      have e1 : ∀ g : JVal, dlookup (dinsert ab kGithub g) kTokens = dlookup ab kTokens :=
        fun g => dlookup_dinsert_ne _ _ _ _ hgt
      cases ht : dlookup ab kTokens with
      | none =>
        refine ⟨dinsert (dinsert ab kGithub
            (.jdict (dinsert (dinsert gh kTokenEnc (.jstr enc)) kToken (.jstr []))))
          kTokens (.jdict (dinsert [] kGithubEnc (.jstr enc))), ?_, frame _ _⟩
        simp only [_inject_encrypted_token, hg]
        rw [e1, ht]
      | some w =>
        cases w with
        | jstr s => rw [ht] at h2; cases h2
        | jdict toks =>
          refine ⟨dinsert (dinsert ab kGithub
              (.jdict (dinsert (dinsert gh kTokenEnc (.jstr enc)) kToken (.jstr []))))
            kTokens (.jdict (dinsert toks kGithubEnc (.jstr enc))), ?_, frame _ _⟩
          simp only [_inject_encrypted_token, hg]
          rw [e1, ht]
theorem versionField_left (ab : Manifest) (k1 k2 s : List Char)
    (h1 : dlookup ab k1 = some (.jstr s)) (h2 : dlookup ab k2 = none) :
    versionField ab k1 k2 = s := by
  cases s with
  | nil => simp [versionField, pyOr, h1, h2, truthy]
  | cons a t => simp [versionField, pyOr, h1, h2, truthy, pyStr]

theorem versionField_right (ab : Manifest) (k1 k2 s : List Char)
    (h1 : dlookup ab k1 = none) (h2 : dlookup ab k2 = some (.jstr s)) :
    versionField ab k1 k2 = s := by
  cases s with
  | nil => simp [versionField, pyOr, h1, h2, truthy]
  | cons a t => simp [versionField, pyOr, h1, h2, truthy, pyStr]

theorem versionField_absent (ab : Manifest) (k1 k2 : List Char)
    (h1 : dlookup ab k1 = none) (h2 : dlookup ab k2 = none) :
    versionField ab k1 k2 = [] := by
  simp [versionField, pyOr, h1, h2]

/-! ## Where `_set_versions` writes -/

theorem set_versions_app_true (ab : Manifest) (av mv : List Char)
    (h : ((dlookup ab kAppVersion).isSome || !(dlookup ab kAppVersionSnake).isSome) = true) :
    dlookup (_set_versions ab av mv) kAppVersion = some (.jstr av) ∧
    dlookup (_set_versions ab av mv) kAppVersionSnake = dlookup ab kAppVersionSnake := by
  simp only [_set_versions, if_pos h]
  split
  next hc =>
    constructor
    · rw [dlookup_dinsert_ne _ _ _ _ (by decide : kAppVersion ≠ kModelVersion)]
      exact dlookup_dinsert_self _ _ _
    · rw [dlookup_dinsert_ne _ _ _ _ (by decide : kAppVersionSnake ≠ kModelVersion)]
      exact dlookup_dinsert_ne _ _ _ _ (by decide : kAppVersionSnake ≠ kAppVersion)
  next hc =>
    constructor
    · rw [dlookup_dinsert_ne _ _ _ _ (by decide : kAppVersion ≠ kModelVersionSnake)]
      exact dlookup_dinsert_self _ _ _
    · rw [dlookup_dinsert_ne _ _ _ _ (by decide : kAppVersionSnake ≠ kModelVersionSnake)]
      exact dlookup_dinsert_ne _ _ _ _ (by decide : kAppVersionSnake ≠ kAppVersion)

theorem set_versions_app_false (ab : Manifest) (av mv : List Char)
    (h : ((dlookup ab kAppVersion).isSome || !(dlookup ab kAppVersionSnake).isSome) = false) :
    dlookup (_set_versions ab av mv) kAppVersionSnake = some (.jstr av) ∧
    dlookup (_set_versions ab av mv) kAppVersion = dlookup ab kAppVersion := by
  have h' : ¬ ((dlookup ab kAppVersion).isSome ||
      !(dlookup ab kAppVersionSnake).isSome) = true := by
    rw [h]
    simp
  simp only [_set_versions]
  rw [if_neg h']
  split
  next hc =>
    constructor
    · rw [dlookup_dinsert_ne _ _ _ _ (by decide : kAppVersionSnake ≠ kModelVersion)]
      exact dlookup_dinsert_self _ _ _
    · rw [dlookup_dinsert_ne _ _ _ _ (by decide : kAppVersion ≠ kModelVersion)]
      exact dlookup_dinsert_ne _ _ _ _ (by decide : kAppVersion ≠ kAppVersionSnake)
  next hc =>
    constructor
    · rw [dlookup_dinsert_ne _ _ _ _ (by decide : kAppVersionSnake ≠ kModelVersionSnake)]
      exact dlookup_dinsert_self _ _ _
    · rw [dlookup_dinsert_ne _ _ _ _ (by decide : kAppVersion ≠ kModelVersionSnake)]
      exact dlookup_dinsert_ne _ _ _ _ (by decide : kAppVersion ≠ kAppVersionSnake)

theorem set_versions_model_true (ab : Manifest) (av mv : List Char)
    (h : ((dlookup ab kModelVersion).isSome || !(dlookup ab kModelVersionSnake).isSome) = true) :
    dlookup (_set_versions ab av mv) kModelVersion = some (.jstr mv) ∧
    dlookup (_set_versions ab av mv) kModelVersionSnake = dlookup ab kModelVersionSnake := by
  simp only [_set_versions]
  split
  next hc =>
    rw [dlookup_dinsert_ne ab kModelVersion kAppVersion (.jstr av)
        (by decide : kModelVersion ≠ kAppVersion),
      dlookup_dinsert_ne ab kModelVersionSnake kAppVersion (.jstr av)
        (by decide : kModelVersionSnake ≠ kAppVersion), if_pos h]
    exact ⟨dlookup_dinsert_self _ _ _,
      by rw [dlookup_dinsert_ne _ _ _ _ (by decide : kModelVersionSnake ≠ kModelVersion),
        dlookup_dinsert_ne _ _ _ _ (by decide : kModelVersionSnake ≠ kAppVersion)]⟩
  next hc =>
    rw [dlookup_dinsert_ne ab kModelVersion kAppVersionSnake (.jstr av)
        (by decide : kModelVersion ≠ kAppVersionSnake),
      dlookup_dinsert_ne ab kModelVersionSnake kAppVersionSnake (.jstr av)
        (by decide : kModelVersionSnake ≠ kAppVersionSnake), if_pos h]
    exact ⟨dlookup_dinsert_self _ _ _,
      by rw [dlookup_dinsert_ne _ _ _ _ (by decide : kModelVersionSnake ≠ kModelVersion),
        dlookup_dinsert_ne _ _ _ _ (by decide : kModelVersionSnake ≠ kAppVersionSnake)]⟩

theorem set_versions_model_false (ab : Manifest) (av mv : List Char)
    (h : ((dlookup ab kModelVersion).isSome || !(dlookup ab kModelVersionSnake).isSome) = false) :
    dlookup (_set_versions ab av mv) kModelVersionSnake = some (.jstr mv) ∧
    dlookup (_set_versions ab av mv) kModelVersion = dlookup ab kModelVersion := by
  simp only [_set_versions]
  split
  next hc =>
    rw [dlookup_dinsert_ne ab kModelVersion kAppVersion (.jstr av)
        (by decide : kModelVersion ≠ kAppVersion),
      dlookup_dinsert_ne ab kModelVersionSnake kAppVersion (.jstr av)
        (by decide : kModelVersionSnake ≠ kAppVersion), if_neg (by rw [h]; simp)]
    exact ⟨dlookup_dinsert_self _ _ _,
      by rw [dlookup_dinsert_ne _ _ _ _ (by decide : kModelVersion ≠ kModelVersionSnake),
        dlookup_dinsert_ne _ _ _ _ (by decide : kModelVersion ≠ kAppVersion)]⟩
  next hc =>
    rw [dlookup_dinsert_ne ab kModelVersion kAppVersionSnake (.jstr av)
        (by decide : kModelVersion ≠ kAppVersionSnake),
      dlookup_dinsert_ne ab kModelVersionSnake kAppVersionSnake (.jstr av)
        (by decide : kModelVersionSnake ≠ kAppVersionSnake), if_neg (by rw [h]; simp)]
    exact ⟨dlookup_dinsert_self _ _ _,
      by rw [dlookup_dinsert_ne _ _ _ _ (by decide : kModelVersion ≠ kModelVersionSnake),
        dlookup_dinsert_ne _ _ _ _ (by decide : kModelVersion ≠ kAppVersionSnake)]⟩

/-! ## Build version pass-through and defaults -/

/-- C8 (amended): when a version dimension is not requested to bump and the
loaded manifest carries that dimension under exactly one of its two
spellings with a string value, the persisted manifest holds the same value
under the same spelling and the other spelling stays absent; symmetrically
for the model dimension.  (With both spellings present and a falsy camelCase
value the pass-through rewrites the camelCase entry from the snake_case one
— see the counterexample.) -/
theorem build_no_bump_passthrough (ab : Manifest) (enc today : List Char)
    (bumpApp bumpModel : Bool) (hg : injectOk ab = true) :
    ∃ m, buildManifest ab enc today bumpApp bumpModel = some m ∧
      (bumpApp = false → oneStrSpelling ab kAppVersion kAppVersionSnake →
        dlookup m kAppVersion = dlookup ab kAppVersion ∧
        dlookup m kAppVersionSnake = dlookup ab kAppVersionSnake) ∧
      (bumpModel = false → oneStrSpelling ab kModelVersion kModelVersionSnake →
        dlookup m kModelVersion = dlookup ab kModelVersion ∧
        dlookup m kModelVersionSnake = dlookup ab kModelVersionSnake) := by
  obtain ⟨ab1, hab1, hframe⟩ := inject_ok_some ab enc hg
  have fApp : dlookup ab1 kAppVersion = dlookup ab kAppVersion :=
    hframe _ (by decide) (by decide)
  have fAppS : dlookup ab1 kAppVersionSnake = dlookup ab kAppVersionSnake :=
    hframe _ (by decide) (by decide)
  have fMod : dlookup ab1 kModelVersion = dlookup ab kModelVersion :=
    hframe _ (by decide) (by decide)
  have fModS : dlookup ab1 kModelVersionSnake = dlookup ab kModelVersionSnake :=
    hframe _ (by decide) (by decide)
  refine ⟨_set_versions ab1
      (if bumpApp then _bump_semver (_extract_versions ab1).1 else (_extract_versions ab1).1)
      (if bumpModel then _bump_model_version today (_extract_versions ab1).2
        else (_extract_versions ab1).2), ?_, ?_, ?_⟩
  · simp only [buildManifest, hab1]
  · rintro rfl hsp
    have hred : (if (false : Bool) then _bump_semver (_extract_versions ab1).1
        else (_extract_versions ab1).1) = (_extract_versions ab1).1 := rfl
    rw [hred]
    have hcur : (_extract_versions ab1).1 = versionField ab1 kAppVersion kAppVersionSnake := rfl
    rcases hsp with ⟨s, hs1, hs2⟩ | ⟨s, hs2, hs1⟩
    · have ha1 : dlookup ab1 kAppVersion = some (.jstr s) := fApp.trans hs1
      have ha2 : dlookup ab1 kAppVersionSnake = none := fAppS.trans hs2
      have hvf : versionField ab1 kAppVersion kAppVersionSnake = s :=
        versionField_left _ _ _ _ ha1 ha2
      have hcond : ((dlookup ab1 kAppVersion).isSome ||
          !(dlookup ab1 kAppVersionSnake).isSome) = true := by
        rw [ha1]
        simp
      have hset := set_versions_app_true ab1 ((_extract_versions ab1).1)
        (if bumpModel then _bump_model_version today (_extract_versions ab1).2
        else (_extract_versions ab1).2) hcond
      constructor
      · rw [hset.1, hs1, hcur, hvf]
      · rw [hset.2, fAppS]
    · have ha1 : dlookup ab1 kAppVersion = none := fApp.trans hs1
      have ha2 : dlookup ab1 kAppVersionSnake = some (.jstr s) := fAppS.trans hs2
      have hvf : versionField ab1 kAppVersion kAppVersionSnake = s :=
        versionField_right _ _ _ _ ha1 ha2
      have hcond : ((dlookup ab1 kAppVersion).isSome ||
          !(dlookup ab1 kAppVersionSnake).isSome) = false := by
        rw [ha1, ha2]
        rfl
      have hset := set_versions_app_false ab1 ((_extract_versions ab1).1)
        (if bumpModel then _bump_model_version today (_extract_versions ab1).2
        else (_extract_versions ab1).2) hcond
      constructor
      · rw [hset.2, fApp]
      · rw [hset.1, hs2, hcur, hvf]
  · rintro rfl hsp
    have hred : (if (false : Bool) then _bump_model_version today (_extract_versions ab1).2
        else (_extract_versions ab1).2) = (_extract_versions ab1).2 := rfl
    rw [hred]
    have hcur : (_extract_versions ab1).2 = versionField ab1 kModelVersion kModelVersionSnake :=
      rfl
    rcases hsp with ⟨s, hs1, hs2⟩ | ⟨s, hs2, hs1⟩
    · have ha1 : dlookup ab1 kModelVersion = some (.jstr s) := fMod.trans hs1
      have ha2 : dlookup ab1 kModelVersionSnake = none := fModS.trans hs2
      have hvf : versionField ab1 kModelVersion kModelVersionSnake = s :=
        versionField_left _ _ _ _ ha1 ha2
      have hcond : ((dlookup ab1 kModelVersion).isSome ||
          !(dlookup ab1 kModelVersionSnake).isSome) = true := by
        rw [ha1]
        simp
      have hset := set_versions_model_true ab1
        (if bumpApp then _bump_semver (_extract_versions ab1).1 else (_extract_versions ab1).1) ((_extract_versions ab1).2) hcond
      constructor
      · rw [hset.1, hs1, hcur, hvf]
      · rw [hset.2, fModS]
    · have ha1 : dlookup ab1 kModelVersion = none := fMod.trans hs1
      have ha2 : dlookup ab1 kModelVersionSnake = some (.jstr s) := fModS.trans hs2
      have hvf : versionField ab1 kModelVersion kModelVersionSnake = s :=
        versionField_right _ _ _ _ ha1 ha2
      have hcond : ((dlookup ab1 kModelVersion).isSome ||
          !(dlookup ab1 kModelVersionSnake).isSome) = false := by
        rw [ha1, ha2]
        rfl
      have hset := set_versions_model_false ab1
        (if bumpApp then _bump_semver (_extract_versions ab1).1 else (_extract_versions ab1).1) ((_extract_versions ab1).2) hcond
      constructor
      · rw [hset.2, fMod]
      · rw [hset.1, hs2, hcur, hvf]

/-- C8 counterexample: with `appVersion` present but empty and `app_version`
holding `"2.0.0"`, a build with `bumpApp` false persists `"2.0.0"` under
`appVersion` — the camelCase entry does not pass through unchanged (the
loaded manifest had `""` there, and the value was taken from the snake_case
spelling). -/
theorem build_dual_spelling_counterexample :
    ((buildManifest [(kAppVersion, JVal.jstr []), (kAppVersionSnake, JVal.jstr "2.0.0".toList)]
        "E".toList "2024-03-05".toList false false).bind
      (fun m => dlookup m kAppVersion)).map pyStr = some "2.0.0".toList ∧
    (dlookup [(kAppVersion, JVal.jstr []), (kAppVersionSnake, JVal.jstr "2.0.0".toList)]
        kAppVersion).map pyStr = some ([] : List Char) ∧
    "2.0.0".toList ≠ ([] : List Char) :=
  ⟨by decide, by decide, by decide⟩

/-- C8 witness: a single camelCase string field passes through a
no-bump build unchanged. -/
theorem build_no_bump_passthrough_witness :
    injectOk [(kAppVersion, JVal.jstr "1.2.3".toList)] = true ∧
    ∃ m, buildManifest [(kAppVersion, JVal.jstr "1.2.3".toList)]
        "E".toList "T".toList false false = some m ∧
      dlookup m kAppVersion = some (JVal.jstr "1.2.3".toList) := by
  refine ⟨by decide, ?_⟩
  obtain ⟨m, hm, happ, -⟩ := build_no_bump_passthrough
    [(kAppVersion, JVal.jstr "1.2.3".toList)] "E".toList "T".toList false false (by decide)
  refine ⟨m, hm, ?_⟩
  rw [(happ rfl (Or.inl ⟨"1.2.3".toList, rfl, rfl⟩)).1]
  rfl

/-- C9 (amended): when the manifest carries neither spelling of either
version field, a build requesting both bumps treats both current values as
empty strings and persists `appVersion = "1.0.0"` and
`modelVersion = "1.0.0"` (not today's date: the empty model version has no
date shape, so it takes the semver path), both under the camelCase spelling,
the snake_case keys staying absent. -/
theorem build_missing_fields_defaults (ab : Manifest) (enc today : List Char)
    (hg : injectOk ab = true)
    (h1 : dlookup ab kAppVersion = none) (h2 : dlookup ab kAppVersionSnake = none)
    (h3 : dlookup ab kModelVersion = none) (h4 : dlookup ab kModelVersionSnake = none) :
    ∃ m, buildManifest ab enc today true true = some m ∧
      dlookup m kAppVersion = some (.jstr "1.0.0".toList) ∧
      dlookup m kModelVersion = some (.jstr "1.0.0".toList) ∧
      dlookup m kAppVersionSnake = none ∧ dlookup m kModelVersionSnake = none := by
  obtain ⟨ab1, hab1, hframe⟩ := inject_ok_some ab enc hg
  have f1 : dlookup ab1 kAppVersion = none := (hframe _ (by decide) (by decide)).trans h1
  have f2 : dlookup ab1 kAppVersionSnake = none := (hframe _ (by decide) (by decide)).trans h2
  have f3 : dlookup ab1 kModelVersion = none := (hframe _ (by decide) (by decide)).trans h3
  have f4 : dlookup ab1 kModelVersionSnake = none := (hframe _ (by decide) (by decide)).trans h4
  have hvfA : (_extract_versions ab1).1 = [] := versionField_absent _ _ _ f1 f2
  have hvfM : (_extract_versions ab1).2 = [] := versionField_absent _ _ _ f3 f4
  have hba : _bump_semver ((_extract_versions ab1).1) = "1.0.0".toList := by
    rw [hvfA]
    exact bump_semver_empty_branch [] rfl
  have hbm2 : _bump_model_version today ((_extract_versions ab1).2) = "1.0.0".toList := by
    rw [hvfM]
    unfold _bump_model_version
    rw [if_neg (by decide)]
    exact bump_semver_empty_branch [] rfl
  have hcondA : ((dlookup ab1 kAppVersion).isSome ||
      !(dlookup ab1 kAppVersionSnake).isSome) = true := by
    rw [f1, f2]
    rfl
  have hcondM : ((dlookup ab1 kModelVersion).isSome ||
      !(dlookup ab1 kModelVersionSnake).isSome) = true := by
    rw [f3, f4]
    rfl
  refine ⟨_set_versions ab1 (_bump_semver (_extract_versions ab1).1)
      (_bump_model_version today (_extract_versions ab1).2), ?_, ?_, ?_, ?_, ?_⟩
  · simp only [buildManifest, hab1]
    rfl
  · rw [(set_versions_app_true ab1 _ _ hcondA).1, hba]
  · rw [(set_versions_model_true ab1 _ _ hcondM).1, hbm2]
  · rw [(set_versions_app_true ab1 _ _ hcondA).2, f2]
  · rw [(set_versions_model_true ab1 _ _ hcondM).2, f4]

/-- C9 counterexample: with an entirely empty manifest the persisted model
version is `"1.0.0"`, not today's ISO date, refuting the claim's
"model version equal to today's ISO date". -/
theorem build_missing_model_version_counterexample :
    ((buildManifest [] "E".toList "2024-03-05".toList true true).bind
      (fun m => dlookup m kModelVersion)).map pyStr = some "1.0.0".toList ∧
    "1.0.0".toList ≠ "2024-03-05".toList :=
  ⟨by decide, by decide⟩

/-- C9 witness: the empty manifest. -/
theorem build_missing_fields_defaults_witness :
    injectOk [] = true ∧
    ∃ m, buildManifest [] "E".toList "2024-03-05".toList true true = some m ∧
      dlookup m kAppVersion = some (JVal.jstr "1.0.0".toList) ∧
      dlookup m kModelVersion = some (JVal.jstr "1.0.0".toList) := by
  refine ⟨rfl, ?_⟩
  obtain ⟨m, hm, ha, hmo, -, -⟩ := build_missing_fields_defaults []
    "E".toList "2024-03-05".toList rfl rfl rfl rfl rfl
  exact ⟨m, hm, ha, hmo⟩

/-! ## Path pieces, substrings, and the preview guard -/

theorem splitOnChar_struct (sep : Char) (l : List Char) :
    ∃ f fs, splitOnChar sep l = f :: fs ∧ (∃ v, f ++ v = l) ∧
      ∀ p ∈ fs, ∃ u v, u ++ (p ++ v) = l := by
  induction l with
  | nil => exact ⟨[], [], rfl, ⟨[], rfl⟩, by simp⟩
  | cons c rest ih =>
    obtain ⟨f, fs, hsplit, ⟨v, hv⟩, hfs⟩ := ih
    by_cases hc : c = sep
    · refine ⟨[], f :: fs, by rw [hc, splitOnChar_cons_sep, hsplit], ⟨c :: rest, rfl⟩, ?_⟩
      intro p hp
      rcases List.mem_cons.mp hp with rfl | hp2
      · exact ⟨[c], v, by simp [hv]⟩
      · obtain ⟨u, w, hw⟩ := hfs p hp2
        exact ⟨c :: u, w, by simp [hw]⟩
    · obtain ⟨f', fs', h1, h2⟩ := splitOnChar_cons_ne sep c rest hc
      rw [hsplit] at h1
      cases h1
      refine ⟨c :: f, fs, h2, ⟨v, by simp [hv]⟩, ?_⟩
      intro p hp
      obtain ⟨u, w, hw⟩ := hfs p hp
      exact ⟨c :: u, w, by simp [hw]⟩

theorem splitOnChar_piece_inside (sep : Char) (l : List Char) :
    ∀ p ∈ splitOnChar sep l, ∃ u v, u ++ (p ++ v) = l := by
  obtain ⟨f, fs, hsp, ⟨v, hv⟩, hfs⟩ := splitOnChar_struct sep l
  intro p hp
  rw [hsp] at hp
  rcases List.mem_cons.mp hp with rfl | hp2
  · exact ⟨[], v, by simpa using hv⟩
  · exact hfs p hp2

theorem hasDotDot_append_left (u t : List Char) (h : hasDotDot t = true) :
    hasDotDot (u ++ t) = true := by
  induction u with
  | nil => simpa using h
  | cons a u' ih =>
    cases hu : u' ++ t with
    | nil =>
      rw [hu] at ih
      simp [hasDotDot] at ih
    | cons b r =>
      have : a :: u' ++ t = a :: b :: r := by rw [List.cons_append, hu]
      rw [this, hasDotDot]
      rw [hu] at ih
      simp [ih]

theorem hasDotDot_append_right (p v : List Char) (h : hasDotDot p = true) :
    hasDotDot (p ++ v) = true := by
  induction p with
  | nil => simp [hasDotDot] at h
  | cons a p' ih =>
    cases p' with
    | nil => simp [hasDotDot] at h
    | cons b r =>
      rw [hasDotDot, Bool.or_eq_true] at h
      have hgoal : a :: b :: r ++ v = a :: b :: (r ++ v) := by simp
      rw [hgoal, hasDotDot]
      rcases h with h1 | h2
      · simp [h1]
      · have := ih h2
        rw [List.cons_append] at this
        simp [this]

theorem components_no_dotdot (n : List Char) (h : hasDotDot n = false) :
    ∀ c ∈ pathComponents n, c ≠ ['.', '.'] := by
  intro c hc hceq
  subst hceq
  have hmem : ['.', '.'] ∈ splitOnChar '/' n := (List.mem_filter.mp hc).1
  obtain ⟨u, v, huv⟩ := splitOnChar_piece_inside '/' n _ hmem
  have hdd : hasDotDot n = true := by
    rw [← huv]
    exact hasDotDot_append_left u _ (hasDotDot_append_right _ v rfl)
  rw [h] at hdd
  cases hdd

theorem drop_length_add {α : Type} (l1 l2 : List α) (n : Nat) :
    List.drop (l1.length + n) (l1 ++ l2) = List.drop n l2 := by
  induction l1 with
  | nil => simp
  | cons a t ih =>
    simp only [List.length_cons, List.cons_append]
    rw [show t.length + 1 + n = (t.length + n) + 1 by omega, List.drop_succ_cons]
    exact ih

theorem endsWith_json_slash_passwd (X : List Char) :
    endsWith ".json".toList (X ++ '/' :: "passwd".toList) = false := by
  unfold endsWith
  have h1 : (X ++ '/' :: "passwd".toList).length = X.length + 7 := by simp
  have h5 : (".json".toList).length = 5 := rfl
  have h2 : List.drop ((X ++ '/' :: "passwd".toList).length - (".json".toList).length)
      (X ++ '/' :: "passwd".toList) = List.drop 2 ('/' :: "passwd".toList) := by
    rw [h1, h5]
    have he : X.length + 7 - 5 = X.length + 2 := by omega
    rw [he, drop_length_add X ('/' :: "passwd".toList) 2]
  rw [h2]
  decide

/-- C1: the extraction step of the preview fetch computes its write target
as `UNZIP_DIR / info.filename` with no path sanitisation: the archive entry
name `/etc/x.json` is written to the absolute path `/etc/x.json` (`pathlib`
discards the left operand for an absolute right operand), and the name
`../../../../../../x.json` climbs out through every parent — both targets
lie outside the workspace, so the claimed zip-slip guard is absent from the
extraction step. -/
theorem preview_extract_writes_outside_workspace :
    entryWritePath ["srv".toList, "app".toList] "/etc/x.json".toList =
      some ["etc".toList, "x.json".toList] ∧
    List.isPrefixOf (unzipDir ["srv".toList, "app".toList])
      ["etc".toList, "x.json".toList] = false ∧
    entryWritePath ["srv".toList, "app".toList] "../../../../../../x.json".toList =
      some ["x.json".toList] ∧
    List.isPrefixOf (unzipDir ["srv".toList, "app".toList]) ["x.json".toList] = false :=
  ⟨by decide, by decide, by decide, by decide⟩

/-- C2 (amended): the read-back endpoint rejects with PathTraversal exactly
the names that are empty after normalisation or contain `..`; an accepted
name that does not begin with a slash after backslash replacement is looked
up strictly inside the workspace (its target is the workspace root extended
by the name's components, none of which is a parent-directory segment);
`readExtracted("../secret.json")` fails with PathTraversal, while
`readExtracted("/etc/passwd")` has its leading slashes stripped, is looked
up inside the workspace, and fails with NotFound — not PathTraversal. -/
theorem api_preview_read_guard (base : List (List Char))
    (readF : List (List Char) → Option (List Char)) (jsonOk : List Char → Bool)
    (raw : List Char) :
    (((normalizeName raw).isEmpty || hasDotDot (normalizeName raw)) = true →
      api_preview_read base readF jsonOk raw = ReadOutcome.pathTraversal) ∧
    (((normalizeName raw).isEmpty || hasDotDot (normalizeName raw)) = false →
      (normalizeName raw).head? ≠ some '/' →
      previewTarget base raw = some (unzipDir base ++ pathComponents (normalizeName raw)) ∧
      ∀ c ∈ pathComponents (normalizeName raw), c ≠ ['.', '.']) ∧
    api_preview_read base readF jsonOk "../secret.json".toList = ReadOutcome.pathTraversal ∧
    api_preview_read base readF jsonOk "/etc/passwd".toList = ReadOutcome.notFound := by
  have hPT : ∀ r, ((normalizeName r).isEmpty || hasDotDot (normalizeName r)) = true →
      api_preview_read base readF jsonOk r = ReadOutcome.pathTraversal := by
    intro r h
    simp only [api_preview_read, previewTarget]
    rw [if_pos h]
  refine ⟨hPT raw, ?_, hPT _ (by decide), ?_⟩
  · intro h hslash
    have h' : ¬ ((normalizeName raw).isEmpty || hasDotDot (normalizeName raw)) = true := by
      rw [h]
      simp
    constructor
    · simp only [previewTarget]
      rw [if_neg h']
      simp only [pyJoin]
      rw [if_neg hslash]
    · have hdd : hasDotDot (normalizeName raw) = false := by
        rcases Bool.or_eq_false_iff.mp h with ⟨-, h2⟩
        exact h2
      exact components_no_dotdot _ hdd
  · have hn : normalizeName ("/etc/passwd".toList) = "etc/passwd".toList := by decide
    have hc1 : ¬ ((("etc/passwd".toList).isEmpty || hasDotDot ("etc/passwd".toList)) = true) := by
      decide
    have hc2 : ¬ (("etc/passwd".toList).head? = some '/') := by decide
    have hcomp : pathComponents ("etc/passwd".toList) = ["etc".toList, "passwd".toList] := by
      decide
    have htgt : previewTarget base ("/etc/passwd".toList) =
        some (unzipDir base ++ ["etc".toList, "passwd".toList]) := by
      simp only [previewTarget, hn, pyJoin]
      rw [if_neg hc1, if_neg hc2, hcomp]
    simp only [api_preview_read, htgt]
    cases hr : readF (unzipDir base ++ ["etc".toList, "passwd".toList]) with
    | none => rfl
    | some text =>
      have hassoc : unzipDir base ++ ["etc".toList, "passwd".toList] =
          (unzipDir base ++ ["etc".toList]) ++ ["passwd".toList] := by simp
      have hstr : pathStr (unzipDir base ++ ["etc".toList, "passwd".toList]) =
          pathStr (unzipDir base ++ ["etc".toList]) ++ '/' :: "passwd".toList := by
        rw [hassoc]
        unfold pathStr
        rw [List.foldl_append]
        rfl
      have hend : endsWith ".json".toList
          (pathStr (unzipDir base ++ ["etc".toList, "passwd".toList])) = false := by
        rw [hstr]
        exact endsWith_json_slash_passwd _
      rw [hend]
      rfl

/-- C2 counterexample: `readExtracted("/etc/passwd")` answers NotFound, not
PathTraversal; moreover, because the backslash replacement happens after the
leading slashes are stripped, the name `\etc\passwd.json` passes the guard
yet resolves to the absolute path `/etc/passwd.json` outside the
workspace. -/
theorem preview_read_etc_passwd_counterexample :
    api_preview_read ["srv".toList, "app".toList] (fun _ => none) (fun _ => true)
      "/etc/passwd".toList = ReadOutcome.notFound ∧
    ReadOutcome.notFound ≠ ReadOutcome.pathTraversal ∧
    previewTarget ["srv".toList, "app".toList] "\\etc\\passwd.json".toList =
      some ["etc".toList, "passwd.json".toList] ∧
    List.isPrefixOf (unzipDir ["srv".toList, "app".toList])
      ["etc".toList, "passwd.json".toList] = false :=
  ⟨rfl, by simp, by decide, by decide⟩

/-- C2 witness: a traversal name is rejected and a clean relative name is
resolved inside the workspace. -/
theorem api_preview_read_guard_witness :
    api_preview_read ["srv".toList, "app".toList] (fun _ => none) (fun _ => true)
      "../x.json".toList = ReadOutcome.pathTraversal ∧
    previewTarget ["srv".toList, "app".toList] "sub/a.json".toList =
      some (unzipDir ["srv".toList, "app".toList] ++ pathComponents ("sub/a.json".toList)) := by
  constructor
  · exact (api_preview_read_guard ["srv".toList, "app".toList] (fun _ => none) (fun _ => true)
      "../x.json".toList).1 (by decide)
  · exact ((api_preview_read_guard ["srv".toList, "app".toList] (fun _ => none) (fun _ => true)
      "sub/a.json".toList).2.1 (by decide) (by decide)).1
